import Mathlib

/-!
Verification development for the EllipticPIR C++ wrapper library
(`src/src_c/epir.hpp`).  The wrapper delegates the cryptographic work to a
native core (`epir.h`) that is not part of the sources; every definition
modelling that core carries a doc comment starting with `Modelled from the
spec:` and is written after the specification's description of the native
operation.  Definitions without that marker are translated directly from
`epir.hpp`.
-/

deriving instance DecidableEq for Except

namespace EllipticPIR

/-- Modelled from the spec: the protocol constants of `epir.h` (missing from
the sources).  Fixed sizes are "treated as protocol constants, values fixed by
the chosen curve": scalar byte size. -/
def EPIR_SCALAR_SIZE : Nat := 32

/-- Modelled from the spec: canonical point byte size. -/
def EPIR_POINT_SIZE : Nat := 32

/-- Modelled from the spec: cipher byte size, `2 × point size`. -/
def EPIR_CIPHER_SIZE : Nat := 2 * EPIR_POINT_SIZE

/-- Modelled from the spec: byte size of one persisted decryption-table
record (`epir_mG_t`): the canonical point encoding followed by the associated
32-bit index. -/
def EPIR_MG_RECORD_SIZE : Nat := EPIR_POINT_SIZE + 4

/-- Modelled from the spec: the curve's prime-order subgroup is cyclic of
order `q`, so curve points are modelled as the additive group `ZMod q`; the
curve arithmetic itself is an external collaborator (out of scope in the
spec, provided by the missing native core). -/
abbrev Point (q : Nat) := ZMod q

/-- Modelled from the spec: a scalar is an integer modulo the curve's group
order `q`. -/
abbrev ScalarVal (q : Nat) := ZMod q

/-- Modelled from the spec: the generator `G` of the prime-order subgroup;
under the isomorphism of the cyclic group with `ZMod q` the generator is `1`
and scalar multiplication `s * P` is ring multiplication in `ZMod q`. -/
def G (q : Nat) : Point q := 1

/-- Modelled from the spec: the canonical byte encoding of a point, viewed as
the natural number whose fixed-width big-endian byte string it is;
`memcmp`-lexicographic order on the fixed-width encodings coincides with the
numeric order of these values. -/
def pointEnc (q : Nat) (P : Point q) : Nat := ZMod.val P

/-- Big-endian byte string of width `len` for a natural number. -/
def natToBytesBE (len n : Nat) : List Nat :=
  (List.range len).map (fun k => n / 256 ^ (len - 1 - k) % 256)

/-- Natural number denoted by a big-endian byte string. -/
def bytesToNatBE (bs : List Nat) : Nat :=
  bs.foldl (fun acc b => acc * 256 + b) 0

/-- Modelled from the spec: serialization of a point to its fixed-size
canonical byte encoding. -/
def pointBytes (q : Nat) (P : Point q) : List Nat :=
  natToBytesBE EPIR_POINT_SIZE (pointEnc q P)

/-- A ciphertext is exactly two points `(C1, C2)` (spec §3); `epir.hpp:18`
stores it as the `EPIR_CIPHER_SIZE`-byte concatenation of the two point
encodings. -/
abbrev Cipher (q : Nat) := Point q × Point q

/-- Serialized form of a `Cipher`: the two point encodings concatenated. -/
def cipherBytes (q : Nat) (c : Cipher q) : List Nat :=
  pointBytes q c.1 ++ pointBytes q c.2

/-- `class Scalar` (`epir.hpp:20-44`): holds the scalar bytes. -/
structure Scalar (q : Nat) where
  bytes : ScalarVal q

/-- `class PrivateKey : public Scalar, Encryptor` (`epir.hpp:85-104`). -/
structure PrivateKey (q : Nat) where
  bytes : ScalarVal q

/-- `class PublicKey : Encryptor` (`epir.hpp:106-145`): holds the point
bytes. -/
structure PublicKey (q : Nat) where
  bytes : Point q

/-- Modelled from the spec: `epir_pubkey_from_privkey` (missing native core):
`derivePublicKey(Scalar)` computes `scalar * G`. -/
def epir_pubkey_from_privkey (q : Nat) (p : ScalarVal q) : Point q :=
  p * G q

/-- `PublicKey(const PrivateKey &privkey)` (`epir.hpp:115-117`). -/
def PublicKey.fromPrivateKey {q : Nat} (k : PrivateKey q) : PublicKey q :=
  ⟨epir_pubkey_from_privkey q k.bytes⟩

/-- Modelled from the spec: `epir_ecelgamal_encrypt` (missing native core),
the public-key path: `C1 = r*G`, `C2 = m*G + r*PublicKey`. -/
def epir_ecelgamal_encrypt (q : Nat) (P : Point q) (m : Nat) (r : ScalarVal q) :
    Cipher q :=
  (r * G q, (m : ZMod q) * G q + r * P)

/-- Modelled from the spec: `epir_ecelgamal_encrypt_fast` (missing native
core), the accelerated private-key path: `C1 = r*G`,
`C2 = m*G + (r*privkey)*G`, precombining `r*privkey` into one scalar. -/
def epir_ecelgamal_encrypt_fast (q : Nat) (p : ScalarVal q) (m : Nat) (r : ScalarVal q) :
    Cipher q :=
  (r * G q, (m : ZMod q) * G q + (r * p) * G q)

/-- `PrivateKey::encrypt` (`epir.hpp:89-93`). -/
def PrivateKey.encrypt {q : Nat} (k : PrivateKey q) (m : Nat) (r : ScalarVal q) :
    Cipher q :=
  epir_ecelgamal_encrypt_fast q k.bytes m r

/-- `PublicKey::encrypt` (`epir.hpp:130-134`). -/
def PublicKey.encrypt {q : Nat} (k : PublicKey q) (m : Nat) (r : ScalarVal q) :
    Cipher q :=
  epir_ecelgamal_encrypt q k.bytes m r

/-- Modelled from the spec: `epir_selector_ciphers_count` (missing native
core): the selector carries one one-hot vector of length `indexCounts[d]` per
dimension, so the total cipher count is the sum of the counts. -/
def epir_selector_ciphers_count (indexCounts : List Nat) : Nat :=
  indexCounts.sum

/-- Modelled from the spec: `epir_selector_elements_count` (missing native
core): the number of representable elements is the product of the per-
dimension counts (mixed-radix index space). -/
def epir_selector_elements_count (indexCounts : List Nat) : Nat :=
  indexCounts.prod

/-- `Encryptor::ciphersCount` (`epir.hpp:69-71`). -/
def Encryptor.ciphersCount (indexCounts : List Nat) : Nat :=
  epir_selector_ciphers_count indexCounts

/-- `Encryptor::elementsCount` (`epir.hpp:76-78`). -/
def Encryptor.elementsCount (indexCounts : List Nat) : Nat :=
  epir_selector_elements_count indexCounts

/-- Modelled from the spec: the digit of `idx` for dimension `d` in the
mixed-radix decomposition shaped by `indexCounts`, dimension-major (most
significant dimension first; §8's vector: `indexCounts = [4, 4]`, `idx = 6`
decomposes to digits `[1, 2]`). -/
def selectorDigit (indexCounts : List Nat) (idx d : Nat) : Nat :=
  idx / (indexCounts.drop (d + 1)).prod % indexCounts.getD d 1

/-- Modelled from the spec: the selector's cipher sequence: for each
dimension a one-hot vector of length `indexCounts[d]`, encrypting `1` at that
dimension's digit position and `0` everywhere else, concatenated in dimension
order. -/
def selectorCiphers (q : Nat) (enc : Nat → ScalarVal q → Cipher q)
    (indexCounts : List Nat) (idx : Nat) (r : ScalarVal q) : List (Cipher q) :=
  (List.range indexCounts.length).flatMap (fun d =>
    (List.range (indexCounts.getD d 0)).map (fun j =>
      enc (if j = selectorDigit indexCounts idx d then 1 else 0) r))

/-- Error kinds of the native core named by the spec (§7). -/
inductive EpirError where
  | invalidParameter
deriving DecidableEq

/-- Modelled from the spec: `epir_selector_create` (missing native core):
validate `idx < elementsCount(indexCounts)` and fail with `InvalidParameter`
before any cryptographic work; otherwise serialize the one-hot cipher
sequence (public-key encryption path). -/
def epir_selector_create (q : Nat) (P : Point q) (indexCounts : List Nat)
    (idx : Nat) (r : ScalarVal q) : Except EpirError (List Nat) :=
  if idx < epir_selector_elements_count indexCounts then
    .ok (((selectorCiphers q (fun m rr => epir_ecelgamal_encrypt q P m rr)
      indexCounts idx r).map (cipherBytes q)).flatten)
  else
    .error .invalidParameter

/-- Modelled from the spec: `epir_selector_create_fast` (missing native
core): same as `epir_selector_create` with the accelerated private-key
encryption path. -/
def epir_selector_create_fast (q : Nat) (p : ScalarVal q) (indexCounts : List Nat)
    (idx : Nat) (r : ScalarVal q) : Except EpirError (List Nat) :=
  if idx < epir_selector_elements_count indexCounts then
    .ok (((selectorCiphers q (fun m rr => epir_ecelgamal_encrypt_fast q p m rr)
      indexCounts idx r).map (cipherBytes q)).flatten)
  else
    .error .invalidParameter

/-- `PrivateKey::createSelector` (`epir.hpp:95-102`): allocates the byte
buffer `selector` with `Encryptor::ciphersCount(indexCounts)`
zero-initialized elements, passes it to the native selector creation, and
returns it unconditionally — the native call's outcome is discarded (there
is no check or throw here, in contrast to `epir.hpp:160` and
`epir.hpp:189`).  On native success the serialized ciphers are written into
the buffer and the returned vector keeps its allocated size, so the result
is the first `ciphersCount(indexCounts)` bytes of the serialization (the
native write past that size has nowhere to land in the returned vector);
on a native rejection nothing has been written and the zero-filled
allocation is returned as is. -/
def PrivateKey.createSelector {q : Nat} (k : PrivateKey q) (indexCounts : List Nat)
    (idx : Nat) (r : ScalarVal q) : List Nat :=
  match epir_selector_create_fast q k.bytes indexCounts idx r with
  | .ok written => written.take (Encryptor.ciphersCount indexCounts)
  | .error _ => List.replicate (Encryptor.ciphersCount indexCounts) 0

/-- `PublicKey::createSelector` (`epir.hpp:136-143`): same unconditional
return of the `Encryptor::ciphersCount(indexCounts)`-byte allocation, handed
to the non-accelerated native selector creation whose outcome is likewise
discarded. -/
def PublicKey.createSelector {q : Nat} (k : PublicKey q) (indexCounts : List Nat)
    (idx : Nat) (r : ScalarVal q) : List Nat :=
  match epir_selector_create q k.bytes indexCounts idx r with
  | .ok written => written.take (Encryptor.ciphersCount indexCounts)
  | .error _ => List.replicate (Encryptor.ciphersCount indexCounts) 0

/-- One decryption-table entry (native `epir_mG_t`): the canonical byte
encoding of `i*G` together with the integer `i`. -/
structure MGEntry where
  point : Nat
  i : Nat
deriving DecidableEq

/-- Modelled from the spec: `epir_mG_generate_no_sort` (missing native core):
computes `i*G` for `i` in `[0, mmax)` by cumulative point addition and stores
the entries in index order, not yet sorted by point encoding. -/
def epir_mG_generate_no_sort (q mmax : Nat) : List MGEntry :=
  (List.range mmax).map (fun (i : Nat) => ⟨pointEnc q ((i : ZMod q) * G q), i⟩)

/-- `class DecryptionContext` (`epir.hpp:147-195`): the requested table range
and the `mG` entry vector. -/
structure DecryptionContext where
  mmax : Nat
  mG : List MGEntry
deriving DecidableEq

/-- The comparison `memcmp(a.point, b.point, EPIR_POINT_SIZE) < 0` used by
the generating constructor's `std::sort` call (`epir.hpp:169-171`),
lexicographic on the fixed-width encodings, i.e. numeric on their values. -/
def mgLt (a b : MGEntry) : Prop := a.point < b.point

instance : DecidableRel mgLt := fun a b => Nat.decLt a.point b.point

/-- The non-strict order induced by the `std::sort` comparator: `std::sort`
leaves adjacent elements `a, b` with `¬ memcmp(b, a) < 0`. -/
def mgLe (a b : MGEntry) : Prop := a.point ≤ b.point

instance : DecidableRel mgLe := fun a b => Nat.decLe a.point b.point

/-- The generating constructor (`epir.hpp:166-172`): fills `mG` with
`epir_mG_generate_no_sort` and then sorts it by the `memcmp` comparator
(`std::sort`'s observable contract — a permutation sorted by the comparator —
is modelled by insertion sort). -/
def DecryptionContext.generate (q mmax : Nat) : DecryptionContext :=
  ⟨mmax, List.insertionSort mgLe (epir_mG_generate_no_sort q mmax)⟩

/-- Parse one persisted table record: the point encoding bytes followed by
the index bytes. -/
def parseMGEntry (bs : List Nat) : MGEntry :=
  ⟨bytesToNatBE (bs.take EPIR_POINT_SIZE),
   bytesToNatBE ((bs.drop EPIR_POINT_SIZE).take 4)⟩

/-- Modelled from the spec: `epir_mG_load` (missing native core): parses the
persisted artifact — a sequence of fixed-size records — reading at most
`mmax` complete records into the entry array and returning how many records
were actually read. -/
def epir_mG_load (bytes : List Nat) (mmax : Nat) : List MGEntry × Nat :=
  let n := min (bytes.length / EPIR_MG_RECORD_SIZE) mmax
  ((List.range n).map (fun k =>
    parseMGEntry ((bytes.drop (EPIR_MG_RECORD_SIZE * k)).take EPIR_MG_RECORD_SIZE)), n)

/-- The loading constructor (`epir.hpp:157-161`): allocates `mG` with `mmax`
entries, loads the artifact, and throws `"Failed to load mG.bin."` unless the
number of records read equals `mmax`.  The artifact bytes stand for the
contents of the file at the given path. -/
def DecryptionContext.load (bytes : List Nat) (mmax : Nat) :
    Except String DecryptionContext :=
  if (epir_mG_load bytes mmax).2 ≠ mmax then .error "Failed to load mG.bin."
  else .ok ⟨mmax, (epir_mG_load bytes mmax).1⟩

/-- Modelled from the spec: the table lookup inside the native decryption:
binary search over the sorted table by canonical point encoding, returning
the associated index or nothing if the point is not found. -/
def mGLookup (mG : List MGEntry) (target : Nat) : Option Nat :=
  (mG.find? (fun e => e.point == target)).map (fun e => e.i)

/-- Modelled from the spec: `epir_ecelgamal_decrypt` (missing native core):
computes `M = C2 - privkey*C1`, looks `M` up in the table, and returns the
associated integer, or the negative value `-1` when the lookup misses. -/
def epir_ecelgamal_decrypt (q : Nat) (p : ScalarVal q) (c : Cipher q)
    (mG : List MGEntry) : Int :=
  match mGLookup mG (pointEnc q (c.2 - p * c.1)) with
  | some m => (m : Int)
  | none => -1

/-- State-passing form of `DecryptionContext::decryptCipher`
(`epir.hpp:174-180`): the method is `const`, so alongside the `int32_t`
result it returns the (unchanged) context the caller observes afterwards. -/
def DecryptionContext.decryptCipherFull {q : Nat} (ctx : DecryptionContext)
    (k : PrivateKey q) (c : Cipher q) : Int × DecryptionContext :=
  (epir_ecelgamal_decrypt q k.bytes c ctx.mG, ctx)

/-- `DecryptionContext::decryptCipher` (`epir.hpp:174-180`): the `int32_t`
returned to the caller. -/
def DecryptionContext.decryptCipher {q : Nat} (ctx : DecryptionContext)
    (k : PrivateKey q) (c : Cipher q) : Int :=
  (ctx.decryptCipherFull k c).1

/-- Modelled from the spec: the successful outcome of one native single-
cipher decryption, as an option: `M = C2 - privkey*C1` looked up in the
table.  `epir_ecelgamal_decrypt` returns `-1` exactly when this is `none`. -/
def ecelgamalDecryptValue (q : Nat) (p : ScalarVal q) (c : Cipher q)
    (mG : List MGEntry) : Option Nat :=
  mGLookup mG (pointEnc q (c.2 - p * c.1))

/-- Modelled from the spec: decoding of a point from its fixed-size canonical
byte encoding. -/
def parsePoint (q : Nat) (bs : List Nat) : Point q :=
  ((bytesToNatBE bs : Nat) : ZMod q)

/-- Modelled from the spec: a cipher record in a reply is the concatenation
of the two point encodings. -/
def parseCipher (q : Nat) (bs : List Nat) : Cipher q :=
  (parsePoint q (bs.take EPIR_POINT_SIZE),
   parsePoint q ((bs.drop EPIR_POINT_SIZE).take EPIR_POINT_SIZE))

/-- Little-endian byte string of width `len` for a natural number, used to
pack a decrypted sub-message into its `packing` bytes. -/
def natToBytesLE (len n : Nat) : List Nat :=
  (List.range len).map (fun k => n / 256 ^ k % 256)

/-- Modelled from the spec: partition a byte buffer into its complete
fixed-size cipher records. -/
def replyCiphers (q : Nat) (bs : List Nat) : List (Cipher q) :=
  (List.range (bs.length / EPIR_CIPHER_SIZE)).map (fun k =>
    parseCipher q ((bs.drop (EPIR_CIPHER_SIZE * k)).take EPIR_CIPHER_SIZE))

/-- Modelled from the spec: decrypt every cipher record, failing as a whole
if any single record fails to decrypt. -/
def decryptAll (q : Nat) (p : ScalarVal q) (mG : List MGEntry) :
    List (Cipher q) → Option (List Nat)
  | [] => some []
  | c :: cs =>
    match ecelgamalDecryptValue q p c mG, decryptAll q p mG cs with
    | some m, some ms => some (m :: ms)
    | _, _ => none

/-- Modelled from the spec: one homomorphic-reduction round of the reply
decryption: decrypt each complete cipher record of the buffer and pack each
decrypted integer into `packing` bytes. -/
def decryptRound (q : Nat) (p : ScalarVal q) (mG : List MGEntry)
    (packing : Nat) (bs : List Nat) : Option (List Nat) :=
  (decryptAll q p mG (replyCiphers q bs)).map
    (fun ms => (ms.map (natToBytesLE packing)).flatten)

/-- Modelled from the spec: iterate `decryptRound` once per dimension. -/
def decryptRounds (q : Nat) (p : ScalarVal q) (mG : List MGEntry)
    (packing : Nat) : Nat → List Nat → Option (List Nat)
  | 0, bs => some bs
  | d + 1, bs =>
    match decryptRound q p mG packing bs with
    | some bs2 => decryptRounds q p mG packing d bs2
    | none => none

/-- Modelled from the spec: `epir_reply_decrypt` (missing native core):
decrypts the reply in place over `dimension` rounds, each round replacing the
buffer's cipher records by their decrypted `packing`-byte sub-messages, and
returns the final decrypted byte count, or a negative value if any record
fails to decrypt.  Modelled as returning the final decrypted prefix of the
buffer, or `none` on failure. -/
def epir_reply_decrypt (q : Nat) (p : ScalarVal q) (dimension packing : Nat)
    (mG : List MGEntry) (bs : List Nat) : Option (List Nat) :=
  decryptRounds q p mG packing dimension bs

/-- The byte count produced by the round length recurrence: each round turns
`n` buffer bytes into `n / EPIR_CIPHER_SIZE` decrypted records of `packing`
bytes each. -/
def decryptedLen (packing : Nat) : Nat → Nat → Nat
  | 0, n => n
  | d + 1, n => decryptedLen packing d (n / EPIR_CIPHER_SIZE * packing)

/-- State-passing form of `DecryptionContext::decryptReply`
(`epir.hpp:182-193`): the source copies the caller's `reply` into a local
`buf` (`epir.hpp:185-186`), lets the native routine decrypt `buf` in place,
throws `"Failed to decrypt."` on a negative count, and otherwise copies the
first `decryptedCount` bytes of `buf` out.  Alongside the result, this
returns the context and the caller's reply buffer as the caller observes
them after the call: the native writes land in `buf`, never in `reply`, and
the method is `const`. -/
def DecryptionContext.decryptReplyFull {q : Nat} (ctx : DecryptionContext)
    (k : PrivateKey q) (reply : List Nat) (dimension packing : Nat) :
    Except String (List Nat) × DecryptionContext × List Nat :=
  let buf := reply
  match epir_reply_decrypt q k.bytes dimension packing ctx.mG buf with
  | none => (.error "Failed to decrypt.", ctx, reply)
  | some out => (.ok out, ctx, reply)

/-- `DecryptionContext::decryptReply` (`epir.hpp:182-193`): the byte buffer
(or failure) returned to the caller. -/
def DecryptionContext.decryptReply {q : Nat} (ctx : DecryptionContext)
    (k : PrivateKey q) (reply : List Nat) (dimension packing : Nat) :
    Except String (List Nat) :=
  (ctx.decryptReplyFull k reply dimension packing).1

instance : IsTotal MGEntry mgLe :=
  ⟨fun a b => Nat.le_total a.point b.point⟩

instance : IsTrans MGEntry mgLe :=
  ⟨fun _ _ _ hab hbc => Nat.le_trans hab hbc⟩

instance : IsTrans MGEntry mgLt :=
  ⟨fun _ _ _ hab hbc => Nat.lt_trans hab hbc⟩

/-! Helper lemmas shared by the claim theorems. -/

theorem encrypt_fast_eq_encrypt (q m : Nat) (p r : ScalarVal q) :
    epir_ecelgamal_encrypt_fast q p m r =
      epir_ecelgamal_encrypt q (epir_pubkey_from_privkey q p) m r := by
  simp [epir_ecelgamal_encrypt_fast, epir_ecelgamal_encrypt,
    epir_pubkey_from_privkey, mul_assoc]

theorem pointEnc_natCast (q i : Nat) (h : i < q) :
    pointEnc q ((i : ZMod q) * G q) = i := by
  simp only [G, mul_one, pointEnc]
  exact ZMod.val_cast_of_lt h

theorem mem_generate_no_sort {q mmax : Nat} {e : MGEntry}
    (he : e ∈ epir_mG_generate_no_sort q mmax) (hq : mmax ≤ q) :
    ∃ i, i < mmax ∧ e = ⟨i, i⟩ := by
  simp only [epir_mG_generate_no_sort, List.mem_map, List.mem_range] at he
  obtain ⟨i, hi, rfl⟩ := he
  exact ⟨i, hi, by rw [pointEnc_natCast q i (lt_of_lt_of_le hi hq)]⟩

theorem generate_find (q mmax m : Nat) (hm : m < mmax) (hq : mmax ≤ q) :
    (DecryptionContext.generate q mmax).mG.find? (fun e => e.point == m) =
      some ⟨m, m⟩ := by
  have hmem : (⟨m, m⟩ : MGEntry) ∈ (DecryptionContext.generate q mmax).mG := by
    rw [DecryptionContext.generate, (List.perm_insertionSort mgLe _).mem_iff]
    simp only [epir_mG_generate_no_sort, List.mem_map, List.mem_range]
    exact ⟨m, hm, by rw [pointEnc_natCast q m (lt_of_lt_of_le hm hq)]⟩
  have hsome : ((DecryptionContext.generate q mmax).mG.find?
      (fun e => e.point == m)).isSome := by
    rw [List.find?_isSome]
    exact ⟨⟨m, m⟩, hmem, by simp⟩
  cases hfind : (DecryptionContext.generate q mmax).mG.find?
      (fun e => e.point == m) with
  | none => rw [hfind] at hsome; simp at hsome
  | some e =>
    have hpe : e.point = m := by
      have := List.find?_some hfind
      simpa using this
    have hememG : e ∈ epir_mG_generate_no_sort q mmax := by
      have := List.mem_of_find?_eq_some hfind
      rw [DecryptionContext.generate] at this
      exact (List.perm_insertionSort mgLe _).mem_iff.mp this
    obtain ⟨i, _, rfl⟩ := mem_generate_no_sort hememG hq
    have him : i = m := hpe
    rw [him]

theorem decrypt_encrypt_fast (q mmax m : Nat) (p r : ScalarVal q)
    (hm : m < mmax) (hq : mmax ≤ q) :
    epir_ecelgamal_decrypt q p (epir_ecelgamal_encrypt_fast q p m r)
      (DecryptionContext.generate q mmax).mG = (m : Int) := by
  have hmask : (epir_ecelgamal_encrypt_fast q p m r).2 -
      p * (epir_ecelgamal_encrypt_fast q p m r).1 = ((m : ZMod q) * G q) := by
    simp only [epir_ecelgamal_encrypt_fast]
    ring
  rw [epir_ecelgamal_decrypt, mGLookup, hmask,
    pointEnc_natCast q m (lt_of_lt_of_le hm hq), generate_find q mmax m hm hq]
  rfl

theorem decryptReplyFull_state {q : Nat} (ctx : DecryptionContext)
    (k : PrivateKey q) (reply : List Nat) (dimension packing : Nat) :
    (ctx.decryptReplyFull k reply dimension packing).2 = (ctx, reply) := by
  rw [DecryptionContext.decryptReplyFull]
  cases epir_reply_decrypt q k.bytes dimension packing ctx.mG reply <;> rfl

/-! The claim theorems. -/

/-- C1: the claim says `createSelector` returns
`ciphersCount(indexCounts) * cipherByteSize` bytes; the code
(`epir.hpp:97,138`) allocates the returned vector with only
`ciphersCount(indexCounts)` elements, so at `indexCounts = [2, 3]`, `idx = 0`
both selector methods return 5 bytes where the claim requires `5 * 64 = 320`
— the allocation drops the `* EPIR_CIPHER_SIZE` factor the native write
needs. -/
theorem createSelector_length_bug :
    ((⟨7⟩ : PrivateKey 101).createSelector [2, 3] 0 5).length =
      Encryptor.ciphersCount [2, 3] ∧
    ((⟨9⟩ : PublicKey 101).createSelector [2, 3] 0 5).length =
      Encryptor.ciphersCount [2, 3] ∧
    Encryptor.ciphersCount [2, 3] ≠
      Encryptor.ciphersCount [2, 3] * EPIR_CIPHER_SIZE :=
  ⟨by decide, by decide, by decide⟩

/-- C2: for every message `m < mmax`, private scalar, and randomness, the
table generated for `[0, mmax)` decrypts both the public-key-path cipher
(under the derived public key) and the accelerated private-key-path cipher
back to exactly `m`. -/
theorem decrypt_round_trip (q mmax m : Nat) (p r : ScalarVal q)
    (hm : m < mmax) (hq : mmax ≤ q) :
    (DecryptionContext.generate q mmax).decryptCipher (⟨p⟩ : PrivateKey q)
        ((PublicKey.fromPrivateKey (⟨p⟩ : PrivateKey q)).encrypt m r) = (m : Int) ∧
    (DecryptionContext.generate q mmax).decryptCipher (⟨p⟩ : PrivateKey q)
        ((⟨p⟩ : PrivateKey q).encrypt m r) = (m : Int) := by
  have hpub : (PublicKey.fromPrivateKey (⟨p⟩ : PrivateKey q)).encrypt m r =
      epir_ecelgamal_encrypt_fast q p m r := by
    rw [PublicKey.encrypt, PublicKey.fromPrivateKey, encrypt_fast_eq_encrypt]
  constructor
  · rw [DecryptionContext.decryptCipher, DecryptionContext.decryptCipherFull, hpub]
    exact decrypt_encrypt_fast q mmax m p r hm hq
  · rw [DecryptionContext.decryptCipher, DecryptionContext.decryptCipherFull,
      PrivateKey.encrypt]
    exact decrypt_encrypt_fast q mmax m p r hm hq

/-- Witness for C2 at `q = 101`, `mmax = 4`, `m = 2`, `p = 3`, `r = 5`. -/
theorem decrypt_round_trip_witness :
    (2 : Nat) < 4 ∧ (4 : Nat) ≤ 101 ∧
    ((DecryptionContext.generate 101 4).decryptCipher (⟨3⟩ : PrivateKey 101)
        ((PublicKey.fromPrivateKey (⟨3⟩ : PrivateKey 101)).encrypt 2 5) = ((2 : Nat) : Int) ∧
     (DecryptionContext.generate 101 4).decryptCipher (⟨3⟩ : PrivateKey 101)
        ((⟨3⟩ : PrivateKey 101).encrypt 2 5) = ((2 : Nat) : Int)) :=
  ⟨by decide, by decide, decrypt_round_trip 101 4 2 3 5 (by decide) (by decide)⟩

/-- C3: whenever the unmasked point `C2 - privkey*C1` is absent from the
table, single-cipher decryption returns the distinct failure value `-1`,
which is negative and therefore never one of the ordinary (nonnegative)
results. -/
theorem decrypt_absent_fails (q : Nat) (ctx : DecryptionContext)
    (k : PrivateKey q) (c : Cipher q)
    (habs : ∀ e ∈ ctx.mG, e.point ≠ pointEnc q (c.2 - k.bytes * c.1)) :
    ctx.decryptCipher k c = -1 ∧ ctx.decryptCipher k c < 0 := by
  have hfind : ctx.mG.find?
      (fun e => e.point == pointEnc q (c.2 - k.bytes * c.1)) = none := by
    rw [List.find?_eq_none]
    intro e he
    simpa using habs e he
  have h1 : ctx.decryptCipher k c = -1 := by
    rw [DecryptionContext.decryptCipher, DecryptionContext.decryptCipherFull,
      epir_ecelgamal_decrypt, mGLookup, hfind]
    rfl
  exact ⟨h1, by rw [h1]; decide⟩

/-- Witness for C3: decrypting a cipher of the out-of-range message `7` with
the table covering `[0, 4)`. -/
theorem decrypt_absent_fails_witness :
    (DecryptionContext.generate 101 4).decryptCipher (⟨3⟩ : PrivateKey 101)
      ((⟨3⟩ : PrivateKey 101).encrypt 7 5) = -1 ∧
    (DecryptionContext.generate 101 4).decryptCipher (⟨3⟩ : PrivateKey 101)
      ((⟨3⟩ : PrivateKey 101).encrypt 7 5) < 0 :=
  decrypt_absent_fails 101 (DecryptionContext.generate 101 4) ⟨3⟩
    ((⟨3⟩ : PrivateKey 101).encrypt 7 5) (by decide)

/-- C4: loading a persisted table artifact fails with the load error exactly
when the number of records actually read differs from the requested `mmax`,
and any successfully loaded table holds exactly `mmax` entries (so a
mismatch is never a partial success). -/
theorem load_mismatch_fails (bytes : List Nat) (mmax : Nat) :
    (DecryptionContext.load bytes mmax = .error "Failed to load mG.bin." ↔
      (epir_mG_load bytes mmax).2 ≠ mmax) ∧
    ((DecryptionContext.load bytes mmax).toOption.map
      (fun ctx => ctx.mG.length)).getD mmax = mmax := by
  have hlen : (epir_mG_load bytes mmax).1.length = (epir_mG_load bytes mmax).2 := by
    simp [epir_mG_load]
  rcases Decidable.em ((epir_mG_load bytes mmax).2 = mmax) with h | h
  · have hok : DecryptionContext.load bytes mmax =
        .ok ⟨mmax, (epir_mG_load bytes mmax).1⟩ := by
      rw [DecryptionContext.load]
      simp [h]
    rw [hok]
    refine ⟨⟨fun he => Except.noConfusion he, fun hne => absurd h hne⟩, ?_⟩
    show (epir_mG_load bytes mmax).1.length = mmax
    rw [hlen]
    exact h
  · have herr : DecryptionContext.load bytes mmax =
        .error "Failed to load mG.bin." := by
      rw [DecryptionContext.load]
      simp [h]
    rw [herr]
    exact ⟨⟨fun _ => h, fun _ => rfl⟩, rfl⟩

/-- Witness for C4: a 72-byte buffer holds only 2 complete records, so
loading with `mmax = 3` fails; a well-formed 3-record artifact loads into a
3-entry table. -/
theorem load_mismatch_fails_witness :
    DecryptionContext.load (List.replicate 72 0) 3 =
      .error "Failed to load mG.bin." ∧
    ((DecryptionContext.load
      (natToBytesBE 32 0 ++ natToBytesBE 4 0 ++
        (natToBytesBE 32 1 ++ natToBytesBE 4 1) ++
        (natToBytesBE 32 2 ++ natToBytesBE 4 2)) 3).toOption.map
      (fun ctx => ctx.mG.length)).getD 3 = 3 :=
  ⟨(load_mismatch_fails (List.replicate 72 0) 3).1.mpr (by decide),
   (load_mismatch_fails
     (natToBytesBE 32 0 ++ natToBytesBE 4 0 ++
       (natToBytesBE 32 1 ++ natToBytesBE 4 1) ++
       (natToBytesBE 32 2 ++ natToBytesBE 4 2)) 3).2⟩

/-- C5: every successfully constructed table is strictly sorted between
adjacent entries under the canonical point-encoding order: the generated
table because it is sorted once after accumulation and its `mmax ≤ q` point
encodings are pairwise distinct, and a loaded table whenever the artifact's
records are in the ascending order the artifact format prescribes. -/
theorem table_sorted (q mmax : Nat) (bytes : List Nat) (ctx : DecryptionContext)
    (hq : mmax ≤ q) (hload : DecryptionContext.load bytes mmax = .ok ctx)
    (hart : List.Chain' mgLt (epir_mG_load bytes mmax).1) :
    List.Chain' mgLt (DecryptionContext.generate q mmax).mG ∧
    List.Chain' mgLt ctx.mG := by
  constructor
  · rw [List.chain'_iff_pairwise]
    have hsorted : List.Pairwise mgLe (DecryptionContext.generate q mmax).mG :=
      List.sorted_insertionSort mgLe (epir_mG_generate_no_sort q mmax)
    have hmapeq : (epir_mG_generate_no_sort q mmax).map MGEntry.point =
        List.range mmax := by
      rw [epir_mG_generate_no_sort, List.map_map]
      have : ∀ i ∈ List.range mmax,
          (MGEntry.point ∘ fun (i : Nat) => (⟨pointEnc q ((i : ZMod q) * G q), i⟩ : MGEntry)) i = id i := by
        intro i hi
        exact pointEnc_natCast q i (lt_of_lt_of_le (List.mem_range.mp hi) hq)
      rw [List.map_congr_left this, List.map_id]
    have hnodupmap : ((DecryptionContext.generate q mmax).mG.map MGEntry.point).Nodup := by
      have hperm : ((DecryptionContext.generate q mmax).mG.map MGEntry.point).Perm
          ((epir_mG_generate_no_sort q mmax).map MGEntry.point) :=
        (List.perm_insertionSort mgLe _).map MGEntry.point
      rw [hperm.nodup_iff, hmapeq]
      exact List.nodup_range mmax
    have hnodup : List.Pairwise (fun a b : MGEntry => a.point ≠ b.point)
        (DecryptionContext.generate q mmax).mG :=
      List.pairwise_map.mp hnodupmap
    exact (hsorted.and hnodup).imp (fun h => lt_of_le_of_ne h.1 h.2)
  · have hctx : ctx = ⟨mmax, (epir_mG_load bytes mmax).1⟩ := by
      rw [DecryptionContext.load] at hload
      rcases Decidable.em ((epir_mG_load bytes mmax).2 = mmax) with h | h
      · simp only [h, ne_eq, not_true_eq_false, if_false, ite_false] at hload
        cases hload
        rfl
      · simp only [ne_eq, h, not_false_eq_true, if_true, ite_true] at hload
        cases hload
    rw [hctx]
    exact hart

/-- Witness for C5 at `q = 101`, `mmax = 3` with a well-formed sorted
artifact. -/
theorem table_sorted_witness :
    List.Chain' mgLt (DecryptionContext.generate 101 3).mG ∧
    List.Chain' mgLt (DecryptionContext.mk 3
      [⟨0, 0⟩, ⟨1, 1⟩, ⟨2, 2⟩]).mG :=
  table_sorted 101 3
    (natToBytesBE 32 0 ++ natToBytesBE 4 0 ++
      (natToBytesBE 32 1 ++ natToBytesBE 4 1) ++
      (natToBytesBE 32 2 ++ natToBytesBE 4 2))
    (DecryptionContext.mk 3 [⟨0, 0⟩, ⟨1, 1⟩, ⟨2, 2⟩])
    (by decide) (by decide)
    (by
      have h : (epir_mG_load
          (natToBytesBE 32 0 ++ natToBytesBE 4 0 ++
            (natToBytesBE 32 1 ++ natToBytesBE 4 1) ++
            (natToBytesBE 32 2 ++ natToBytesBE 4 2)) 3).1 =
          [⟨0, 0⟩, ⟨1, 1⟩, ⟨2, 2⟩] := by decide
      rw [h]
      simp [List.chain'_cons, mgLt])

/-- C6, counterexample to the claim as stated: `indexCounts = [2, 3]` has
`elementsCount = 6`, so `idx = 6` is out of range, yet neither selector
method fails — both return a 5-byte buffer (the zero-initialized
`ciphersCount(indexCounts)`-element allocation of `epir.hpp:97,138`,
untouched because the native creation rejected the request before
encrypting anything), so selector bytes are produced and no
`InvalidParameter` reaches the caller. -/
theorem createSelector_invalid_counterexample :
    Encryptor.elementsCount [2, 3] ≤ 6 ∧
    (⟨7⟩ : PrivateKey 101).createSelector [2, 3] 6 5 = List.replicate 5 0 ∧
    (⟨9⟩ : PublicKey 101).createSelector [2, 3] 6 5 = List.replicate 5 0 :=
  ⟨by decide, by decide, by decide⟩

/-- C6, as amended: with `idx` out of range (or a zero entry in
`indexCounts`, which leaves no valid index at all), the native selector
creation rejects the request with `InvalidParameter` before performing any
encryption; the wrapper methods, however, surface no failure — they discard
the native outcome and return their `ciphersCount(indexCounts)`-byte
zero-initialized allocation with no selector ciphers written to it. -/
theorem createSelector_invalid (q : Nat) (k : PrivateKey q) (pk : PublicKey q)
    (indexCounts : List Nat) (idx : Nat) (r : ScalarVal q)
    (h : Encryptor.elementsCount indexCounts ≤ idx ∨ 0 ∈ indexCounts) :
    epir_selector_create_fast q k.bytes indexCounts idx r =
      .error .invalidParameter ∧
    epir_selector_create q pk.bytes indexCounts idx r =
      .error .invalidParameter ∧
    k.createSelector indexCounts idx r =
      List.replicate (Encryptor.ciphersCount indexCounts) 0 ∧
    pk.createSelector indexCounts idx r =
      List.replicate (Encryptor.ciphersCount indexCounts) 0 := by
  have hnot : ¬ idx < epir_selector_elements_count indexCounts := by
    rcases h with h | h
    · exact Nat.not_lt.mpr h
    · rw [epir_selector_elements_count, List.prod_eq_zero h]
      exact Nat.not_lt_zero idx
  have hfast : epir_selector_create_fast q k.bytes indexCounts idx r =
      .error .invalidParameter := by
    rw [epir_selector_create_fast, if_neg hnot]
  have hpub : epir_selector_create q pk.bytes indexCounts idx r =
      .error .invalidParameter := by
    rw [epir_selector_create, if_neg hnot]
  refine ⟨hfast, hpub, ?_, ?_⟩
  · rw [PrivateKey.createSelector, hfast]
  · rw [PublicKey.createSelector, hpub]

/-- Witness for the amended C6 at `indexCounts = [2, 3]`, `idx = 10`. -/
theorem createSelector_invalid_witness :
    epir_selector_create_fast 101 (7 : ZMod 101) [2, 3] 10 5 =
      .error .invalidParameter ∧
    epir_selector_create 101 (9 : ZMod 101) [2, 3] 10 5 =
      .error .invalidParameter ∧
    (⟨7⟩ : PrivateKey 101).createSelector [2, 3] 10 5 =
      List.replicate (Encryptor.ciphersCount [2, 3]) 0 ∧
    (⟨9⟩ : PublicKey 101).createSelector [2, 3] 10 5 =
      List.replicate (Encryptor.ciphersCount [2, 3]) 0 :=
  createSelector_invalid 101 ⟨7⟩ ⟨9⟩ [2, 3] 10 5 (Or.inl (by decide))

theorem decryptAll_eq_none {q : Nat} (p : ScalarVal q) (mG : List MGEntry)
    {c : Cipher q} {cs : List (Cipher q)} (hc : c ∈ cs)
    (hn : ecelgamalDecryptValue q p c mG = none) :
    decryptAll q p mG cs = none := by
  induction cs with
  | nil => cases hc
  | cons c' cs' ih =>
    rw [decryptAll]
    rcases List.mem_cons.mp hc with rfl | hmem
    · rw [hn]
    · rw [ih hmem]
      cases ecelgamalDecryptValue q p c' mG <;> rfl

theorem decryptAll_length {q : Nat} (p : ScalarVal q) (mG : List MGEntry)
    (cs : List (Cipher q)) (ms : List Nat)
    (h : decryptAll q p mG cs = some ms) : ms.length = cs.length := by
  induction cs generalizing ms with
  | nil =>
    rw [decryptAll] at h
    cases h
    rfl
  | cons c cs ih =>
    rw [decryptAll] at h
    cases hv : ecelgamalDecryptValue q p c mG with
    | none => rw [hv] at h; cases h
    | some m =>
      rw [hv] at h
      cases hr : decryptAll q p mG cs with
      | none => rw [hr] at h; cases h
      | some ms' =>
        rw [hr] at h
        cases h
        simp [ih ms' hr]

theorem sum_map_const {α : Type} (l : List α) (n : Nat) :
    (l.map (fun _ => n)).sum = l.length * n := by
  induction l with
  | nil => simp
  | cons a l ih => simp [ih, Nat.succ_mul, Nat.add_comm]

theorem natToBytesLE_length (len n : Nat) : (natToBytesLE len n).length = len := by
  simp [natToBytesLE]

theorem replyCiphers_length (q : Nat) (bs : List Nat) :
    (replyCiphers q bs).length = bs.length / EPIR_CIPHER_SIZE := by
  simp [replyCiphers]

theorem decryptRound_length {q : Nat} (p : ScalarVal q) (mG : List MGEntry)
    (packing : Nat) (bs out : List Nat)
    (h : decryptRound q p mG packing bs = some out) :
    out.length = bs.length / EPIR_CIPHER_SIZE * packing := by
  rw [decryptRound] at h
  cases hr : decryptAll q p mG (replyCiphers q bs) with
  | none => rw [hr] at h; cases h
  | some ms =>
    rw [hr] at h
    cases h
    rw [List.length_flatten, List.map_map]
    have hconst : ms.map (List.length ∘ natToBytesLE packing) =
        ms.map (fun _ => packing) :=
      List.map_congr_left (fun m _ => natToBytesLE_length packing m)
    rw [hconst, sum_map_const, decryptAll_length p mG _ ms hr,
      replyCiphers_length]

theorem decryptRounds_length {q : Nat} (p : ScalarVal q) (mG : List MGEntry)
    (packing d : Nat) (bs out : List Nat)
    (h : decryptRounds q p mG packing d bs = some out) :
    out.length = decryptedLen packing d bs.length := by
  induction d generalizing bs with
  | zero =>
    rw [decryptRounds] at h
    cases h
    rfl
  | succ d ih =>
    rw [decryptRounds] at h
    cases hr : decryptRound q p mG packing bs with
    | none => rw [hr] at h; cases h
    | some bs2 =>
      rw [hr] at h
      rw [decryptedLen, ← decryptRound_length p mG packing bs bs2 hr]
      exact ih bs2 h

/-- C8: if any cipher record of the reply fails to decrypt, the whole reply
decode fails with the propagated decryption failure and returns no data;
when it succeeds, the returned buffer is truncated to exactly the byte count
the decryption rounds actually produced. -/
theorem decryptReply_all_or_nothing (q : Nat) (ctx : DecryptionContext)
    (k : PrivateKey q) (reply : List Nat) (dimension packing : Nat) :
    ((1 ≤ dimension ∧ ∃ c ∈ replyCiphers q reply,
        ecelgamalDecryptValue q k.bytes c ctx.mG = none) →
      ctx.decryptReply k reply dimension packing = .error "Failed to decrypt.") ∧
    (∀ out, ctx.decryptReply k reply dimension packing = .ok out →
      out.length = decryptedLen packing dimension reply.length) := by
  constructor
  · rintro ⟨hd, c, hc, hn⟩
    obtain ⟨d, rfl⟩ : ∃ d, dimension = d + 1 := ⟨dimension - 1, by omega⟩
    have hround : decryptRound q k.bytes ctx.mG packing reply = none := by
      rw [decryptRound, decryptAll_eq_none k.bytes ctx.mG hc hn]
      rfl
    have hnone : epir_reply_decrypt q k.bytes (d + 1) packing ctx.mG reply =
        none := by
      rw [epir_reply_decrypt, decryptRounds, hround]
    rw [DecryptionContext.decryptReply, DecryptionContext.decryptReplyFull,
      hnone]
  · intro out hout
    rw [DecryptionContext.decryptReply,
      DecryptionContext.decryptReplyFull] at hout
    cases hr : epir_reply_decrypt q k.bytes dimension packing ctx.mG reply with
    | none => rw [hr] at hout; cases hout
    | some out' =>
      rw [hr] at hout
      cases hout
      exact decryptRounds_length k.bytes ctx.mG packing dimension reply out hr

/-- Witness for C8: a reply holding one cipher of the out-of-range message
`7` aborts the decode with the failure error; a reply holding one cipher of
the in-range message `2` decodes to a buffer of exactly
`decryptedLen 1 1 64 = 1` byte. -/
theorem decryptReply_all_or_nothing_witness :
    (DecryptionContext.generate 101 4).decryptReply (⟨3⟩ : PrivateKey 101)
      (cipherBytes 101 ((⟨3⟩ : PrivateKey 101).encrypt 7 5)) 1 1 =
        .error "Failed to decrypt." ∧
    ([2] : List Nat).length =
      decryptedLen 1 1 (cipherBytes 101 ((⟨3⟩ : PrivateKey 101).encrypt 2 5)).length :=
  ⟨(decryptReply_all_or_nothing 101 (DecryptionContext.generate 101 4) ⟨3⟩
      (cipherBytes 101 ((⟨3⟩ : PrivateKey 101).encrypt 7 5)) 1 1).1
      ⟨by decide, by decide⟩,
   (decryptReply_all_or_nothing 101 (DecryptionContext.generate 101 4) ⟨3⟩
      (cipherBytes 101 ((⟨3⟩ : PrivateKey 101).encrypt 2 5)) 1 1).2
      [2] (by decide)⟩

/-- C9: decryption is deterministic and reply decoding idempotent: a second
call on the state left behind by a first call — the context after
`decryptCipher`, and the context and caller's reply buffer after
`decryptReply` — returns the identical result. -/
theorem decrypt_deterministic (q : Nat) (ctx : DecryptionContext)
    (k : PrivateKey q) (c : Cipher q) (reply : List Nat)
    (dimension packing : Nat) :
    ((ctx.decryptCipherFull k c).2.decryptCipherFull k c).1 =
      (ctx.decryptCipherFull k c).1 ∧
    ((ctx.decryptReplyFull k reply dimension packing).2.1.decryptReplyFull k
        (ctx.decryptReplyFull k reply dimension packing).2.2
        dimension packing).1 =
      (ctx.decryptReplyFull k reply dimension packing).1 := by
  refine ⟨rfl, ?_⟩
  rw [decryptReplyFull_state]

/-- C10: neither decryption entry point mutates observable state: the
context (table entries and `mmax`) is unchanged by `decryptCipher` and
`decryptReply`, and the caller's reply buffer is unchanged by
`decryptReply`, which decrypts a local copy. -/
theorem decrypt_no_mutation (q : Nat) (ctx : DecryptionContext)
    (k : PrivateKey q) (c : Cipher q) (reply : List Nat)
    (dimension packing : Nat) :
    (ctx.decryptCipherFull k c).2 = ctx ∧
    (ctx.decryptReplyFull k reply dimension packing).2.1 = ctx ∧
    (ctx.decryptReplyFull k reply dimension packing).2.2 = reply := by
  refine ⟨rfl, ?_, ?_⟩ <;> rw [decryptReplyFull_state]

/-- C7: with the same explicit randomness, the accelerated private-key
encryption produces the two-point ciphertext
`(r*G, m*G + (r*privkey)*G)`, which is exactly the ciphertext the
public-key path produces under the derived public key `privkey*G`. -/
theorem encrypt_variants_agree (q m : Nat) (p r : ScalarVal q) :
    (⟨p⟩ : PrivateKey q).encrypt m r =
      (r * G q, (m : ZMod q) * G q + (r * p) * G q) ∧
    (⟨p⟩ : PrivateKey q).encrypt m r =
      (PublicKey.fromPrivateKey (⟨p⟩ : PrivateKey q)).encrypt m r := by
  constructor
  · rfl
  · rw [PrivateKey.encrypt, PublicKey.encrypt, PublicKey.fromPrivateKey,
      encrypt_fast_eq_encrypt]

end EllipticPIR
